import Mathlib

/-!
Shallow embedding of the H264Decoder addon (src/addons/h264_decoder/src/h264_decoder.cpp).

Two components are modelled:
* the YUV plane repacker inside `H264Decoder::decode_frame` (lines 206-298), and
* the IMA-ADPCM audio path `H264Decoder::decode_audio` / `decode_sample_ima`
  (lines 301-345).

Bytes are modelled as `Nat`, byte buffers as total functions `Nat → Nat`
(a Godot `PackedByteArray` after `resize` is zero-initialized, hence the
initial buffer is `fun _ => 0`), frame planes as `Option (Nat → Nat)`
(the `data[k]` pointer, `none` when null) read at flat byte offsets, and
row strides (`linesize[k]`) as `Nat`.  The float sample emitted by the
audio decoder is modelled exactly as the rational `predicted / 32768`
(the C++ value `(float)predicted / 32768.0f` is exact for
`|predicted| ≤ 32768`).  Logging is not modelled.
-/

namespace H264

/-- The pixel formats `decode_frame` distinguishes.  `other` stands for every
`AVPixelFormat` value that is none of the six recognized ones; the code treats
all of those identically (a rate-limited warning, nothing else). -/
inductive PixFmt where
  | yuv420p
  | yuvj420p
  | nv12
  | nv21
  | yuv422p
  | yuvj422p
  | other
deriving DecidableEq

/-- A decoded `AVFrame` as `decode_frame` reads it: dimensions, format,
the three plane pointers `data[0..2]` and their strides `linesize[0..2]`. -/
structure Frame where
  width : Nat
  height : Nat
  format : PixFmt
  data0 : Option (Nat → Nat)
  data1 : Option (Nat → Nat)
  data2 : Option (Nat → Nat)
  linesize0 : Nat
  linesize1 : Nat
  linesize2 : Nat

/-- `int y_size = width * height` -/
def ySize (f : Frame) : Nat := f.width * f.height

/-- `int uv_width = width / 2` -/
def uvWidth (f : Frame) : Nat := f.width / 2

/-- `int uv_height = height / 2` -/
def uvHeight (f : Frame) : Nat := f.height / 2

/-- `int uv_size = uv_width * uv_height` -/
def uvSize (f : Frame) : Nat := uvWidth f * uvHeight f

/-- `int total_size = y_size + (uv_size * 2)` -/
def totalSize (f : Frame) : Nat := ySize f + uvSize f * 2

/-- `memset(buf + off, v, n)` on a byte buffer. -/
def memset (buf : Nat → Nat) (off n v : Nat) : Nat → Nat :=
  fun j => if off ≤ j ∧ j < off + n then v else buf j

/-- `memcpy(buf + off, src + srcOff, n)`: `src` is a frame plane, a region of
memory disjoint from the destination buffer. -/
def memcpy (buf : Nat → Nat) (off : Nat) (src : Nat → Nat) (srcOff n : Nat) :
    Nat → Nat :=
  fun j => if off ≤ j ∧ j < off + n then src (srcOff + (j - off)) else buf j

/-- A single byte store `buf[j] = v`. -/
def writeByte (buf : Nat → Nat) (j v : Nat) : Nat → Nat :=
  fun k => if k = j then v else buf k

/-- The luma loop, lines 220-222:
`for (i = 0; i < n; i++) memcpy(dst + i*w, y + i*ls, w)`;
`copyLumaRows y ls w n buf` is the buffer after the first `n` iterations. -/
def copyLumaRows (y : Nat → Nat) (ls w : Nat) : Nat → (Nat → Nat) → (Nat → Nat)
  | 0, buf => buf
  | n + 1, buf => memcpy (copyLumaRows y ls w n buf) (n * w) y (n * ls) w

/-- The YUV420P/YUVJ420P chroma loop, lines 261-265: row `i` of the output
chroma region starts at `ybase + i*w` and holds `uvw` U bytes followed by
`uvw` V bytes, each copied at the plane's native stride. -/
def copy420Rows (u v : Nat → Nat) (ls1 ls2 w uvw ybase : Nat) :
    Nat → (Nat → Nat) → (Nat → Nat)
  | 0, buf => buf
  | n + 1, buf =>
    let buf1 := copy420Rows u v ls1 ls2 w uvw ybase n buf
    let rowDst := ybase + n * w
    memcpy (memcpy buf1 rowDst u (n * ls1) uvw) (rowDst + uvw) v (n * ls2) uvw

/-- The inner NV12/NV21 de-interleave loop, lines 274-277, over `x < uvw`:
`row_dst[x]` and `row_dst[uvw + x]` take the two bytes of source pair `x`,
in an order selected by `isNV12`. -/
def nvPixels (srcRow : Nat → Nat) (rowDst uvw : Nat) (isNV12 : Bool) :
    Nat → (Nat → Nat) → (Nat → Nat)
  | 0, buf => buf
  | x + 1, buf =>
    let buf1 := nvPixels srcRow rowDst uvw isNV12 x buf
    let a := if isNV12 then srcRow (x * 2) else srcRow (x * 2 + 1)
    let b := if isNV12 then srcRow (x * 2 + 1) else srcRow (x * 2)
    writeByte (writeByte buf1 (rowDst + x) a) (rowDst + uvw + x) b

/-- The NV12/NV21 row loop, lines 271-278. -/
def copyNVRows (uv : Nat → Nat) (ls1 w uvw ybase : Nat) (isNV12 : Bool) :
    Nat → (Nat → Nat) → (Nat → Nat)
  | 0, buf => buf
  | n + 1, buf =>
    let buf1 := copyNVRows uv ls1 w uvw ybase isNV12 n buf
    nvPixels (fun k => uv (n * ls1 + k)) (ybase + n * w) uvw isNV12 uvw buf1

/-- The YUV422P/YUVJ422P chroma loop, lines 284-288: identical to the 420
loop except that the source row index is doubled (every other row read). -/
def copy422Rows (u v : Nat → Nat) (ls1 ls2 w uvw ybase : Nat) :
    Nat → (Nat → Nat) → (Nat → Nat)
  | 0, buf => buf
  | n + 1, buf =>
    let buf1 := copy422Rows u v ls1 ls2 w uvw ybase n buf
    let rowDst := ybase + n * w
    memcpy (memcpy buf1 rowDst u (n * 2 * ls1) uvw) (rowDst + uvw) v
      (n * 2 * ls2) uvw

/-- `bool u_missing = !frame->data[1]` (line 227). -/
def uMissing (f : Frame) : Bool := f.data1.isNone

/-- `bool v_missing = !frame->data[2] && format != NV12 && format != NV21`
(line 228). -/
def vMissing (f : Frame) : Bool :=
  f.data2.isNone && !(decide (f.format = PixFmt.nv12))
    && !(decide (f.format = PixFmt.nv21))

/-- The six probe bytes of the corruption heuristic (lines 236-241), all
compared against zero. -/
def probesZero (p : Nat → Nat) (uvw uvs : Nat) : Bool :=
  (p 0 == 0) && (p (uvw / 2) == 0) && (p (uvw - 1) == 0)
    && (p (uvs / 4) == 0) && (p (uvs / 2) == 0) && (p (uvs - 1) == 0)

/-- `u_invalid` (lines 230-242): probed only when the U plane is present. -/
def uInvalid (f : Frame) : Bool :=
  match f.data1 with
  | none => false
  | some u => probesZero u (uvWidth f) (uvSize f)

/-- `v_invalid` (lines 243-250): probed when `!v_missing && frame->data[2]`. -/
def vInvalid (f : Frame) : Bool :=
  match f.data2 with
  | none => false
  | some v => !(vMissing f) && probesZero v (uvWidth f) (uvSize f)

/-- The condition of the pre-fill at line 254:
`u_missing || v_missing || u_invalid || v_invalid`. -/
def fishy (f : Frame) : Bool :=
  uMissing f || vMissing f || uInvalid f || vInvalid f

/-- Step 1 of the repack: the luma copy (lines 219-223) over the
zero-initialized buffer produced by `result.resize(total_size)`. -/
def lumaStage (f : Frame) : Nat → Nat :=
  match f.data0 with
  | none => fun _ => 0
  | some y => copyLumaRows y f.linesize0 f.width f.height (fun _ => 0)

/-- Step 2: the conditional neutral pre-fill
`memset(uv_dst_start, 128, uv_size * 2)` (lines 254-256). -/
def fillStage (f : Frame) (buf : Nat → Nat) : Nat → Nat :=
  if fishy f then memset buf (ySize f) (uvSize f * 2) 128 else buf

/-- Step 3: the per-format chroma dispatch (lines 259-296).  The guards are
exactly the code's: the 420 and 422 branches run iff
`!u_missing && !v_missing`, the semiplanar branch iff `!u_missing`; the
invalidity flags are NOT consulted here.  The unrecognized-format branch
only logs. -/
def dispatchStage (f : Frame) (buf : Nat → Nat) : Nat → Nat :=
  if f.format = PixFmt.yuv420p ∨ f.format = PixFmt.yuvj420p then
    match f.data1, f.data2 with
    | some u, some v =>
      if !(uMissing f) && !(vMissing f) then
        copy420Rows u v f.linesize1 f.linesize2 f.width (uvWidth f) (ySize f)
          (uvHeight f) buf
      else buf
    | _, _ => buf
  else if f.format = PixFmt.nv12 ∨ f.format = PixFmt.nv21 then
    match f.data1 with
    | some uv =>
      if !(uMissing f) then
        copyNVRows uv f.linesize1 f.width (uvWidth f) (ySize f)
          (decide (f.format = PixFmt.nv12)) (uvHeight f) buf
      else buf
    | none => buf
  else if f.format = PixFmt.yuv422p ∨ f.format = PixFmt.yuvj422p then
    match f.data1, f.data2 with
    | some u, some v =>
      if !(uMissing f) && !(vMissing f) then
        copy422Rows u v f.linesize1 f.linesize2 f.width (uvWidth f) (ySize f)
          (uvHeight f) buf
      else buf
    | _, _ => buf
  else buf

/-- The full repacker: the byte at each offset of the returned
`PackedByteArray`. -/
def repackBuf (f : Frame) : Nat → Nat :=
  dispatchStage f (fillStage f (lumaStage f))

/-- The returned buffer as the list of its `total_size` bytes. -/
def repackBytes (f : Frame) : List Nat :=
  (List.range (totalSize f)).map (repackBuf f)

/-! ### Audio: IMA-ADPCM (lines 27-38, 301-345) -/

/-- `static const int IMA_INDEX_TABLE[16]` (lines 27-30). -/
def IMA_INDEX_TABLE : List Int :=
  [-1, -1, -1, -1, 2, 4, 6, 8,
   -1, -1, -1, -1, 2, 4, 6, 8]

/-- `static const int IMA_STEP_TABLE[89]` (lines 32-38). -/
def IMA_STEP_TABLE : List Nat :=
  [7, 8, 9, 10, 11, 12, 13, 14, 16, 17, 19, 21, 23, 25, 28, 31, 34, 37, 41,
   45, 50, 55, 60, 66, 73, 80, 88, 97, 107, 118, 130, 143, 157, 173, 190,
   209, 230, 253, 279, 307, 337, 371, 408, 449, 494, 544, 598, 658, 724,
   796, 876, 963, 1060, 1166, 1282, 1411, 1552, 1707, 1878, 2066, 2272,
   2499, 2749, 3024, 3327, 3660, 4026, 4428, 4871, 5358, 5894, 6484, 7132,
   7845, 8630, 9493, 10442, 11487, 12635, 13899, 15289, 16818, 18500,
   20350, 22385, 24623, 27086, 29794, 32767]

/-- `H264Decoder::decode_sample_ima` (lines 321-345).  The C++ function takes
`predicted` and `index` by reference and returns a `float`; here it returns
the triple (emitted sample, new `predicted`, new `index`).  The sample
`(float)predicted / 32768.0f` is the exact rational `predicted / 32768`.
Table reads (`step` positive, so the C right shifts are `Nat` shifts) are
modelled totally with `getD`; `decode_sample_ima_chk` below embeds the same
body with bounds-checked indexing. -/
def decode_sample_ima (nibble : Nat) (predicted index : Int) :
    ℚ × Int × Int :=
  let step : Nat := IMA_STEP_TABLE.getD index.toNat 0
  let diff0 : Nat := step >>> 3
  let diff1 : Nat := if nibble &&& 4 ≠ 0 then diff0 + step else diff0
  let diff2 : Nat := if nibble &&& 2 ≠ 0 then diff1 + (step >>> 1) else diff1
  let diff : Nat := if nibble &&& 1 ≠ 0 then diff2 + (step >>> 2) else diff2
  let p1 : Int := if nibble &&& 8 ≠ 0 then predicted - diff else predicted + diff
  let p2 : Int := if p1 > 32767 then 32767 else if p1 < -32768 then -32768 else p1
  let i1 : Int := index + IMA_INDEX_TABLE.getD nibble 0
  let i2 : Int := if i1 < 0 then 0 else if i1 > 88 then 88 else i1
  ((p2 : ℚ) / 32768, p2, i2)

/-- The same step with the two table accesses bounds-checked: `none` exactly
when `IMA_STEP_TABLE[index]` or `IMA_INDEX_TABLE[nibble]` would read out of
bounds (a negative `index` included). -/
def decode_sample_ima_chk (nibble : Nat) (predicted index : Int) :
    Option (ℚ × Int × Int) :=
  if index < 0 then none
  else
    match IMA_STEP_TABLE.get? index.toNat, IMA_INDEX_TABLE.get? nibble with
    | some step, some delta =>
      let diff0 : Nat := step >>> 3
      let diff1 : Nat := if nibble &&& 4 ≠ 0 then diff0 + step else diff0
      let diff2 : Nat := if nibble &&& 2 ≠ 0 then diff1 + (step >>> 1) else diff1
      let diff : Nat := if nibble &&& 1 ≠ 0 then diff2 + (step >>> 2) else diff2
      let p1 : Int := if nibble &&& 8 ≠ 0 then predicted - diff else predicted + diff
      let p2 : Int := if p1 > 32767 then 32767 else if p1 < -32768 then -32768 else p1
      let i1 : Int := index + delta
      let i2 : Int := if i1 < 0 then 0 else if i1 > 88 then 88 else i1
      some ((p2 : ℚ) / 32768, p2, i2)
    | _, _ => none

/-- The per-channel ADPCM state of the decoder object:
`last_sample_l/last_index_l/last_sample_r/last_index_r`. -/
structure AudioState where
  last_sample_l : Int
  last_index_l : Int
  last_sample_r : Int
  last_index_r : Int
deriving DecidableEq

/-- `H264Decoder::decode_audio` (lines 301-319): one stereo pair per input
byte, the high nibble through the left channel, the low nibble through the
right channel; returns the output pairs and the final channel states. -/
def decode_audio : List Nat → AudioState → List (ℚ × ℚ) × AudioState
  | [], s => ([], s)
  | b :: rest, s =>
    let rl := decode_sample_ima (b >>> 4) s.last_sample_l s.last_index_l
    let rr := decode_sample_ima (b &&& 15) s.last_sample_r s.last_index_r
    let s1 : AudioState := ⟨rl.2.1, rl.2.2, rr.2.1, rr.2.2⟩
    let rest1 := decode_audio rest s1
    ((rl.1, rr.1) :: rest1.1, rest1.2)

/-- The audio step as §4.2 of the specification words it, for the refinement
claim: `diff = step >> 3` plus `step`, `step >> 1`, `step >> 2` when nibble
bits 2, 1, 0 are set; `predictor` moved by `diff` with the direction chosen
by bit 3 and clamped to `[-32768, 32767]`; `step_index` moved by
`INDEX_TABLE[nibble]` and clamped to `[0, 88]`; the emitted sample is
`predictor / 32768`. -/
def imaStepSpec (nibble : Nat) (predictor index : Int) : ℚ × Int × Int :=
  let step : Nat := IMA_STEP_TABLE.getD index.toNat 0
  let diff : Nat :=
    step / 8 + (if nibble &&& 4 ≠ 0 then step else 0)
      + (if nibble &&& 2 ≠ 0 then step / 2 else 0)
      + (if nibble &&& 1 ≠ 0 then step / 4 else 0)
  let p : Int := if nibble &&& 8 ≠ 0 then predictor - diff else predictor + diff
  let pc : Int := max (-32768) (min 32767 p)
  let ic : Int := max 0 (min 88 (index + IMA_INDEX_TABLE.getD nibble 0))
  ((pc : ℚ) / 32768, pc, ic)

/-! ### Concrete frames used to evaluate the repacker -/

/-- A 2×2 U plane: bytes 1,2 / 3,4 at stride 2. -/
def exU : Nat → Nat := fun k => [1, 2, 3, 4].getD k 0

/-- A 2×2 V plane: bytes 5,6 / 7,8 at stride 2. -/
def exV : Nat → Nat := fun k => [5, 6, 7, 8].getD k 0

/-- A 4×4 YUV420P frame with fully populated, non-suspect chroma planes. -/
def exC1 : Frame :=
  { width := 4, height := 4, format := PixFmt.yuv420p,
    data0 := some (fun _ => 7), data1 := some exU, data2 := some exV,
    linesize0 := 4, linesize1 := 2, linesize2 := 2 }

/-- An 8-byte (4×2) U plane whose six probe bytes (offsets 0,2,3,2,4,7) are
all zero while offset 1 holds the non-zero byte 9. -/
def exC2u : Nat → Nat := fun k => [0, 9, 0, 0, 0, 0, 0, 0].getD k 0

/-- An 8×4 YUV420P frame whose U plane trips the corruption heuristic while
its V plane (constant 128) does not. -/
def exC2 : Frame :=
  { width := 8, height := 4, format := PixFmt.yuv420p,
    data0 := some (fun _ => 7), data1 := some exC2u,
    data2 := some (fun _ => 128),
    linesize0 := 8, linesize1 := 4, linesize2 := 4 }

/-- A 4×4 YUV420P frame whose U plane pointer is null. -/
def exC3 : Frame :=
  { width := 4, height := 4, format := PixFmt.yuv420p,
    data0 := some (fun _ => 7), data1 := none, data2 := some exV,
    linesize0 := 4, linesize1 := 2, linesize2 := 2 }

/-- A 4×4 frame of unrecognized format whose chroma planes are present with
non-zero probe bytes. -/
def exC4 : Frame :=
  { width := 4, height := 4, format := PixFmt.other,
    data0 := some (fun _ => 7), data1 := some (fun _ => 9),
    data2 := some (fun _ => 9),
    linesize0 := 4, linesize1 := 2, linesize2 := 2 }

/-! ### Buffer lemmas -/

theorem copyLumaRows_out (y : Nat → Nat) (ls w : Nat) (n : Nat)
    (buf : Nat → Nat) (j : Nat) (hj : n * w ≤ j) :
    copyLumaRows y ls w n buf j = buf j := by
  induction n with
  | zero => rfl
  | succ m ih =>
    have hj' : m * w + w ≤ j := by rw [Nat.succ_mul] at hj; exact hj
    simp only [copyLumaRows, memcpy]
    rw [if_neg (by omega)]
    exact ih (by omega)

/-- The luma stage never writes at or past `y_size`: those bytes keep the
zero value `resize` gave them. -/
theorem lumaStage_out (f : Frame) (j : Nat) (hj : ySize f ≤ j) :
    lumaStage f j = 0 := by
  unfold lumaStage
  cases hy : f.data0 with
  | none => rfl
  | some y =>
    exact copyLumaRows_out y f.linesize0 f.width f.height _ j
      (by unfold ySize at hj; rw [Nat.mul_comm]; exact hj)

/-- Reading back a U byte written by the 420 chroma loop. -/
theorem copy420Rows_read_u (u v : Nat → Nat) (ls1 ls2 w uvw ybase : Nat)
    (hw : 2 * uvw ≤ w) (n : Nat) (buf : Nat → Nat) (r c : Nat)
    (hr : r < n) (hc : c < uvw) :
    copy420Rows u v ls1 ls2 w uvw ybase n buf (ybase + r * w + c)
      = u (r * ls1 + c) := by
  induction n with
  | zero => omega
  | succ m ih =>
    simp only [copy420Rows, memcpy]
    rcases Nat.lt_succ_iff_lt_or_eq.mp hr with h | h
    · have h1 : r * w + w ≤ m * w := by
        have := Nat.mul_le_mul_right w h
        rw [Nat.succ_mul] at this
        omega
      rw [if_neg (by omega), if_neg (by omega)]
      exact ih h
    · subst h
      rw [if_neg (by omega), if_pos (by omega)]
      congr 1
      omega

/-- Reading back a V byte written by the 420 chroma loop. -/
theorem copy420Rows_read_v (u v : Nat → Nat) (ls1 ls2 w uvw ybase : Nat)
    (hw : 2 * uvw ≤ w) (n : Nat) (buf : Nat → Nat) (r c : Nat)
    (hr : r < n) (hc : c < uvw) :
    copy420Rows u v ls1 ls2 w uvw ybase n buf (ybase + r * w + uvw + c)
      = v (r * ls2 + c) := by
  induction n with
  | zero => omega
  | succ m ih =>
    simp only [copy420Rows, memcpy]
    rcases Nat.lt_succ_iff_lt_or_eq.mp hr with h | h
    · have h1 : r * w + w ≤ m * w := by
        have := Nat.mul_le_mul_right w h
        rw [Nat.succ_mul] at this
        omega
      rw [if_neg (by omega), if_neg (by omega)]
      exact ih h
    · subst h
      rw [if_pos (by omega)]
      congr 1
      omega

/-- The per-format dispatch writes nothing when chroma-U is missing, or when
chroma-V is missing with a non-semiplanar format: every branch's guard
fails. -/
theorem dispatchStage_missing (f : Frame) (buf : Nat → Nat)
    (hm : f.data1 = none ∨
      (f.data2 = none ∧ f.format ≠ PixFmt.nv12 ∧ f.format ≠ PixFmt.nv21)) :
    dispatchStage f buf = buf := by
  rcases hm with h | ⟨h2, hn1, hn2⟩ <;>
    cases hfmt : f.format <;> cases hd1 : f.data1 <;> cases hd2 : f.data2 <;>
      simp_all [dispatchStage, uMissing, vMissing]

/-- The dispatch is the identity on unrecognized formats. -/
theorem dispatchStage_other (f : Frame) (buf : Nat → Nat)
    (hf : f.format = PixFmt.other) : dispatchStage f buf = buf := by
  unfold dispatchStage
  rw [hf]
  simp

/-- A missing plane makes the pre-fill condition true. -/
theorem fishy_of_missing (f : Frame)
    (hm : f.data1 = none ∨
      (f.data2 = none ∧ f.format ≠ PixFmt.nv12 ∧ f.format ≠ PixFmt.nv21)) :
    fishy f = true := by
  rcases hm with h | ⟨h2, hn1, hn2⟩
  · simp [fishy, uMissing, h]
  · simp [fishy, vMissing, h2, decide_eq_false hn1, decide_eq_false hn2]

/-! ### Claim C1 -/

/-- Claim C1, counterexample.  The claim places the chroma-U byte of
destination coordinate (row 1, col 0) at `y_size + 1*(w/2) + 0 = 18` for the
4×4 frame `exC1` and demands that it equal the source U byte
`exU (1*linesize1 + 0) = 3`; the repacker actually stores the V byte 5
there, because each destination chroma row occupies `width` (not `w/2`)
bytes: U and V rows are interleaved, not stored as two contiguous blocks. -/
theorem C1_layout_counterexample :
    repackBuf exC1 (ySize exC1 + 1 * uvWidth exC1 + 0)
      ≠ exU (1 * exC1.linesize1 + 0) := by
  decide

/-- Claim C1, amended.  For a PLANAR_420 frame with both chroma planes
present, the output chroma byte layout is row-interleaved: destination row
`r` of the chroma region starts at `y_size + r*width` and holds the `w/2`
U bytes of source row `r` followed by its `w/2` V bytes, each read at the
plane's native stride. -/
theorem C1_layout_amended (f : Frame) (u v : Nat → Nat) (r c : Nat)
    (hfmt : f.format = PixFmt.yuv420p ∨ f.format = PixFmt.yuvj420p)
    (hu : f.data1 = some u) (hv : f.data2 = some v)
    (hr : r < uvHeight f) (hc : c < uvWidth f) :
    repackBuf f (ySize f + r * f.width + c) = u (r * f.linesize1 + c) ∧
    repackBuf f (ySize f + r * f.width + uvWidth f + c)
      = v (r * f.linesize2 + c) := by
  have hw : 2 * uvWidth f ≤ f.width := by unfold uvWidth; omega
  have hdis : ∀ buf, dispatchStage f buf =
      copy420Rows u v f.linesize1 f.linesize2 f.width (uvWidth f) (ySize f)
        (uvHeight f) buf := by
    intro buf
    unfold dispatchStage
    rcases hfmt with h | h <;>
      simp [h, hu, hv, uMissing, vMissing, decide_eq_false]
  unfold repackBuf
  rw [hdis]
  exact ⟨copy420Rows_read_u u v f.linesize1 f.linesize2 f.width (uvWidth f)
      (ySize f) hw (uvHeight f) _ r c hr hc,
    copy420Rows_read_v u v f.linesize1 f.linesize2 f.width (uvWidth f)
      (ySize f) hw (uvHeight f) _ r c hr hc⟩

/-- Claim C1, witness for the amended theorem at `exC1`, (row 1, col 0):
the U byte lands at `y_size + 1*width + 0 = 20` and the V byte at
`y_size + 1*width + w/2 + 0 = 22`. -/
theorem C1_layout_amended_witness :
    repackBuf exC1 (ySize exC1 + 1 * exC1.width + 0)
        = exU (1 * exC1.linesize1 + 0) ∧
      repackBuf exC1 (ySize exC1 + 1 * exC1.width + uvWidth exC1 + 0)
        = exV (1 * exC1.linesize2 + 0) :=
  C1_layout_amended exC1 exU exV 1 0 (Or.inl rfl) rfl rfl
    (by decide) (by decide)

/-! ### Claim C2 -/

/-- Claim C2, the code's divergence at the failing input `exC2`.  The U
plane's six probe bytes are all zero, so `u_invalid` is set and the chroma
region is pre-filled with 128 — but the per-format dispatch checks only
`!u_missing && !v_missing`, never the invalidity flags, so the suspect plane
is copied anyway: the output byte at `y_size + 1 = 33` is the source U byte
9, not the neutral 128 the claim (and the code's own "we must force Grey"
comment) requires. -/
theorem C2_suspect_plane_copied :
    uInvalid exC2 = true ∧ fishy exC2 = true ∧
      repackBuf exC2 (ySize exC2 + 1) = 9 := by
  decide

/-! ### Claim C3 -/

/-- Claim C3: when the chroma-U pointer is null, or the chroma-V pointer is
null while the format is not NV12/NV21, every byte of the two output chroma
regions (offsets `y_size ≤ j < total_size`) is 128: the pre-fill fires and
no dispatch branch writes. -/
theorem C3_null_plane_neutral (f : Frame) (j : Nat)
    (hm : f.data1 = none ∨
      (f.data2 = none ∧ f.format ≠ PixFmt.nv12 ∧ f.format ≠ PixFmt.nv21))
    (h1 : ySize f ≤ j) (h2 : j < totalSize f) :
    repackBuf f j = 128 := by
  unfold repackBuf
  rw [dispatchStage_missing f _ hm]
  unfold fillStage
  rw [fishy_of_missing f hm]
  simp only [if_true]
  unfold memset
  rw [if_pos (by unfold totalSize at h2; omega)]

/-- Claim C3, witness: the 4×4 frame `exC3` with a null U plane, at the
first chroma byte. -/
theorem C3_null_plane_neutral_witness : repackBuf exC3 16 = 128 :=
  C3_null_plane_neutral exC3 16 (Or.inl rfl) (by decide) (by decide)

/-! ### Claim C4 -/

/-- Claim C4, counterexample.  For the unrecognized-format frame `exC4`
whose chroma planes are present with non-zero probe bytes, no neutral fill
happens: the first output chroma byte is the allocator's 0, not 128. -/
theorem C4_other_counterexample :
    exC4.format = PixFmt.other ∧ ySize exC4 ≤ 16 ∧ 16 < totalSize exC4 ∧
      repackBuf exC4 16 ≠ 128 := by
  decide

/-- Claim C4, amended.  For an unrecognized format no chroma copy is
attempted (the dispatch is the identity) and the chroma regions hold the
neutral 128 exactly when the fill condition (a chroma plane missing or
suspect) fired, and the zero-initialized allocation byte 0 otherwise; the
call still returns a full-sized buffer, never an error. -/
theorem C4_other_amended (f : Frame) (hf : f.format = PixFmt.other) :
    (∀ buf, dispatchStage f buf = buf) ∧
    ∀ j, ySize f ≤ j → j < totalSize f →
      repackBuf f j = if fishy f then 128 else 0 := by
  refine ⟨fun buf => dispatchStage_other f buf hf, fun j h1 h2 => ?_⟩
  unfold repackBuf
  rw [dispatchStage_other f _ hf]
  unfold fillStage
  cases hfy : fishy f with
  | true =>
    simp only [if_true]
    unfold memset
    rw [if_pos (by unfold totalSize at h2; omega)]
  | false =>
    simp only [Bool.false_eq_true, if_false]
    exact lumaStage_out f j h1

/-- Claim C4, witness for the amended theorem at `exC4` (where the fill
condition is false) at the first chroma byte. -/
theorem C4_other_amended_witness :
    repackBuf exC4 16 = if fishy exC4 then 128 else 0 :=
  (C4_other_amended exC4 rfl).2 16 (by decide) (by decide)

/-! ### Claim C5 -/

/-- Claim C5: for even dimensions the returned buffer has exactly
`w*h + 2*(w/2)*(h/2)` bytes, a pure function of the dimensions. -/
theorem C5_buffer_size (f : Frame)
    (_hw : f.width % 2 = 0) (_hh : f.height % 2 = 0) :
    (repackBytes f).length
      = f.width * f.height + 2 * ((f.width / 2) * (f.height / 2)) := by
  simp only [repackBytes, List.length_map, List.length_range, totalSize,
    ySize, uvSize, uvWidth, uvHeight]
  ring

/-- Claim C5, witness at the 4×4 frame `exC1`. -/
theorem C5_buffer_size_witness :
    (repackBytes exC1).length = 4 * 4 + 2 * ((4 / 2) * (4 / 2)) :=
  C5_buffer_size exC1 rfl rfl

/-! ### Audio lemmas -/

/-- The source step function and its specification-worded restatement agree
on the updated channel state. -/
theorem decode_sample_ima_state_eq_spec (n : Nat) (p i : Int) :
    (decode_sample_ima n p i).2 = (imaStepSpec n p i).2 := by
  by_cases h4 : n &&& 4 ≠ 0 <;> by_cases h2 : n &&& 2 ≠ 0 <;>
    by_cases h1 : n &&& 1 ≠ 0 <;>
      simp only [decode_sample_ima, imaStepSpec, h4, h2, h1,
        Nat.shiftRight_eq_div_pow, if_true, if_false, ite_true, ite_false,
        not_true, not_false_iff, ite_not, Prod.mk.injEq,
        show (2 : Nat) ^ 3 = 8 from rfl, show (2 : Nat) ^ 1 = 2 from rfl,
        show (2 : Nat) ^ 2 = 4 from rfl] <;>
      split_ifs <;> constructor <;> omega

/-- The emitted sample is the updated predictor over 32768, for both the
source function and the specification restatement (definitional). -/
theorem decode_sample_ima_fst (n : Nat) (p i : Int) :
    (decode_sample_ima n p i).1
      = ((decode_sample_ima n p i).2.1 : ℚ) / 32768 := rfl

theorem imaStepSpec_fst (n : Nat) (p i : Int) :
    (imaStepSpec n p i).1 = ((imaStepSpec n p i).2.1 : ℚ) / 32768 := rfl

/-- Full agreement of the source step function with the specification's
restatement. -/
theorem decode_sample_ima_eq_spec (n : Nat) (p i : Int) :
    decode_sample_ima n p i = imaStepSpec n p i := by
  have h2 := decode_sample_ima_state_eq_spec n p i
  refine Prod.ext ?_ h2
  rw [decode_sample_ima_fst, imaStepSpec_fst, h2]

/-- The updated predictor is always inside the 16-bit PCM range and the
updated step index inside `[0, 88]`: the trailing clamps guarantee it
unconditionally. -/
theorem ima_state_bounds (n : Nat) (p i : Int) :
    -32768 ≤ (decode_sample_ima n p i).2.1 ∧
      (decode_sample_ima n p i).2.1 ≤ 32767 ∧
      0 ≤ (decode_sample_ima n p i).2.2 ∧
      (decode_sample_ima n p i).2.2 ≤ 88 := by
  simp only [decode_sample_ima]
  split_ifs <;> refine ⟨by omega, by omega, by omega, by omega⟩

/-- Dividing a 16-bit PCM value by 32768 lands in `[-1, 1]`. -/
theorem pcm_sample_bounds (x : Int) (h1 : -32768 ≤ x) (h2 : x ≤ 32767) :
    -1 ≤ (x : ℚ) / 32768 ∧ (x : ℚ) / 32768 ≤ 1 := by
  constructor
  · rw [le_div_iff₀ (by norm_num : (0 : ℚ) < 32768)]
    have hx : (-32768 : ℚ) ≤ (x : ℚ) := by exact_mod_cast h1
    linarith
  · rw [div_le_one (by norm_num : (0 : ℚ) < 32768)]
    have hx : (x : ℚ) ≤ 32767 := by exact_mod_cast h2
    linarith

/-- Every entry of the step table reachable from a clamped index is at
least 7 (the table's minimum). -/
theorem stepTable_ge_seven : ∀ k, k < 89 → 7 ≤ IMA_STEP_TABLE.getD k 0 := by
  decide

/-! ### Claim C6 -/

/-- Claim C6: per input byte the high nibble is decoded for the left
channel and the low nibble for the right channel, each through the step
function exactly as the specification words it (`diff` built from
`step >> 3` and bits 2/1/0, predictor moved by bit 3 and clamped to
`[-32768, 32767]`, index moved by `INDEX_TABLE[nibble]` and clamped to
`[0, 88]`, sample `predictor / 32768`). -/
theorem C6_nibble_step :
    (∀ n p i, decode_sample_ima n p i = imaStepSpec n p i) ∧
    (∀ b s, decode_audio [b] s =
      ([((imaStepSpec (b >>> 4) s.last_sample_l s.last_index_l).1,
         (imaStepSpec (b &&& 15) s.last_sample_r s.last_index_r).1)],
       ⟨(imaStepSpec (b >>> 4) s.last_sample_l s.last_index_l).2.1,
        (imaStepSpec (b >>> 4) s.last_sample_l s.last_index_l).2.2,
        (imaStepSpec (b &&& 15) s.last_sample_r s.last_index_r).2.1,
        (imaStepSpec (b &&& 15) s.last_sample_r s.last_index_r).2.2⟩)) := by
  refine ⟨decode_sample_ima_eq_spec, fun b s => ?_⟩
  simp only [decode_audio, decode_sample_ima_eq_spec]

/-! ### Claim C7 -/

/-- Claim C7: `decode_audio` yields exactly one stereo pair per input byte,
and on the empty input returns the empty output with the channel states
untouched. -/
theorem C7_length_and_empty :
    (∀ bs s, ((decode_audio bs s).1).length = bs.length) ∧
    (∀ s, decode_audio [] s = ([], s)) := by
  constructor
  · intro bs
    induction bs with
    | nil => intro s; rfl
    | cons b rest ih => intro s; simpa [decode_audio] using ih _
  · intro s; rfl

/-! ### Claim C8 -/

/-- Claim C8: from a predictor in `[-32768, 32767]` and a step index in
`[0, 88]`, decoding any nibble leaves the predictor and index in those
ranges again, and the emitted sample lies in `[-1, 1]`. -/
theorem C8_state_invariant (n : Nat) (p i : Int)
    (_hp1 : -32768 ≤ p) (_hp2 : p ≤ 32767)
    (_hi1 : 0 ≤ i) (_hi2 : i ≤ 88) :
    -32768 ≤ (decode_sample_ima n p i).2.1 ∧
      (decode_sample_ima n p i).2.1 ≤ 32767 ∧
      0 ≤ (decode_sample_ima n p i).2.2 ∧
      (decode_sample_ima n p i).2.2 ≤ 88 ∧
      -1 ≤ (decode_sample_ima n p i).1 ∧
      (decode_sample_ima n p i).1 ≤ 1 := by
  obtain ⟨h1, h2, h3, h4⟩ := ima_state_bounds n p i
  have hs := pcm_sample_bounds _ h1 h2
  rw [decode_sample_ima_fst]
  exact ⟨h1, h2, h3, h4, hs.1, hs.2⟩

/-- Claim C8, witness at nibble 7 from the zero state. -/
theorem C8_state_invariant_witness :
    -32768 ≤ (decode_sample_ima 7 0 0).2.1 ∧
      (decode_sample_ima 7 0 0).1 ≤ 1 :=
  ⟨(C8_state_invariant 7 0 0 (by decide) (by decide) (by decide)
      (by decide)).1,
   (C8_state_invariant 7 0 0 (by decide) (by decide) (by decide)
      (by decide)).2.2.2.2.2⟩

/-! ### Claim C9 -/

/-- Claim C9: decoding nibble `0xF` (both nibbles of the byte `0xFF`) from
any in-range channel state strictly decreases the predictor while it is
above -32768 and pins it at -32768 once reached, and raises the step index
by 8 (saturating at 88), keeping it at 88 once there. -/
theorem C9_nibbleF_drives_down (p i : Int)
    (_hp1 : -32768 ≤ p) (hp2 : p ≤ 32767) (hi1 : 0 ≤ i) (hi2 : i ≤ 88) :
    ((-32768 < p → (decode_sample_ima 15 p i).2.1 < p) ∧
     (p = -32768 → (decode_sample_ima 15 p i).2.1 = -32768)) ∧
    ((i < 88 → (decode_sample_ima 15 p i).2.2 = min (i + 8) 88 ∧
        i < (decode_sample_ima 15 p i).2.2) ∧
     (i = 88 → (decode_sample_ima 15 p i).2.2 = 88)) := by
  have hstep : 7 ≤ IMA_STEP_TABLE.getD i.toNat 0 :=
    stepTable_ge_seven i.toNat (by omega)
  have hidx : IMA_INDEX_TABLE.getD 15 0 = 8 := rfl
  simp only [decode_sample_ima, hidx, Nat.shiftRight_eq_div_pow,
    show (2 : Nat) ^ 3 = 8 from rfl, show (2 : Nat) ^ 1 = 2 from rfl,
    show (2 : Nat) ^ 2 = 4 from rfl,
    eq_true (show (15 : Nat) &&& 4 ≠ 0 by decide),
    eq_true (show (15 : Nat) &&& 2 ≠ 0 by decide),
    eq_true (show (15 : Nat) &&& 1 ≠ 0 by decide),
    eq_true (show (15 : Nat) &&& 8 ≠ 0 by decide),
    if_true, ite_true]
  split_ifs <;> omega

/-- Claim C9, witness from the fresh state (0, 0). -/
theorem C9_nibbleF_drives_down_witness :
    (decode_sample_ima 15 0 0).2.1 < 0 ∧
      (decode_sample_ima 15 0 0).2.2 = min (0 + 8) 88 :=
  ⟨(C9_nibbleF_drives_down 0 0 (by decide) (by decide) (by decide)
      (by decide)).1.1 (by decide),
   ((C9_nibbleF_drives_down 0 0 (by decide) (by decide) (by decide)
      (by decide)).2.1 (by decide)).1⟩

/-! ### Claim C10 -/

/-- Claim C10: with a step index in `[0, 88]` and a nibble in `[0, 15]`,
both table reads of the audio step are in bounds (`IMA_STEP_TABLE` has 89
entries, `IMA_INDEX_TABLE` has 16): the bounds-checked embedding returns
`some` and agrees with the total one. -/
theorem C10_table_access_total (n : Nat) (p i : Int)
    (hn : n ≤ 15) (hi1 : 0 ≤ i) (hi2 : i ≤ 88) :
    decode_sample_ima_chk n p i = some (decode_sample_ima n p i) := by
  have hb1 : ∀ k, k < 89 →
      IMA_STEP_TABLE.get? k = some (IMA_STEP_TABLE.getD k 0) := by decide
  have hb2 : ∀ k, k < 16 →
      IMA_INDEX_TABLE.get? k = some (IMA_INDEX_TABLE.getD k 0) := by decide
  unfold decode_sample_ima_chk
  rw [if_neg (by omega), hb1 i.toNat (by omega), hb2 n (by omega)]
  rfl

/-- Claim C10, witness at nibble 0 from the zero state. -/
theorem C10_table_access_total_witness :
    decode_sample_ima_chk 0 0 0 = some (decode_sample_ima 0 0 0) :=
  C10_table_access_total 0 0 0 (by decide) (by decide) (by decide)

end H264
